import Mathlib

/-!
Verification of the Expense-Splitter receipt pipeline.

Shallow embedding of the Python sources:
  models/extracted_item.py, models/expense.py, models/person.py,
  models/receipt_data.py, services/receipt_parser.py,
  services/expense_calculator.py.
Floats are modelled as rationals (all monetary values in the program are
two-decimal literals); Python strings are modelled over their character
lists; dicts keyed by insertion order are modelled as association lists.
-/

namespace ExpenseSplitter

/-! ### Character helpers (Python `str` methods and regex character classes) -/

/-- Python whitespace characters matched by the regex class `\s`
(space, tab, newline, carriage return, vertical tab, form feed). -/
def isWsChar (c : Char) : Bool :=
  c = ' ' || c = '\t' || c = '\n' || c = '\r' || c.toNat = 11 || c.toNat = 12

/-- ASCII lowercasing, the effect of Python `str.lower` on the ASCII range. -/
def lowerChar (c : Char) : Char :=
  if 65 ≤ c.toNat && c.toNat ≤ 90 then Char.ofNat (c.toNat + 32) else c

/-- Regex class `\d` (ASCII digits). -/
def isDigitChar (c : Char) : Bool := c.isDigit

/-- Regex class `[a-zA-Z]`. -/
def isAlphaChar (c : Char) : Bool := c.isAlpha

/-- Regex class `\w` (word characters) over the ASCII range. -/
def isWordChar (c : Char) : Bool := c.isAlphanum || c = '_'

/-- Python `str.strip()` : drop whitespace from both ends. -/
def pyStrip (l : List Char) : List Char :=
  ((l.dropWhile isWsChar).reverse.dropWhile isWsChar).reverse

/-- Python `str.lower()` over a character list. -/
def lowerStr (l : List Char) : List Char := l.map lowerChar

/-- `re.sub(r'\s+', ' ', text)` : replace every maximal whitespace run by a
single space.  The boolean flag records whether the previous character
belonged to a whitespace run already rewritten. -/
def collapseWsAux : Bool → List Char → List Char
  | _, [] => []
  | prevWs, c :: rest =>
    if isWsChar c then
      if prevWs then collapseWsAux true rest
      else ' ' :: collapseWsAux true rest
    else c :: collapseWsAux false rest

def collapseWs (l : List Char) : List Char := collapseWsAux false l

/-- Python `text.split('\n')` (returns one possibly empty piece even for
the empty string, like Python). -/
def splitOnNl (l : List Char) : List (List Char) :=
  match l with
  | [] => [[]]
  | c :: rest =>
    match splitOnNl rest with
    | [] => [[c]]
    | piece :: pieces =>
      if c = '\n' then [] :: piece :: pieces else (c :: piece) :: pieces

/-- Python `'\n'.join(lines)`. -/
def joinNl : List (List Char) → List Char
  | [] => []
  | [l] => l
  | l :: ls => l ++ '\n' :: joinNl ls

/-- Python `'; '.join(msgs)` over strings. -/
def joinSemi : List String → String
  | [] => ""
  | [s] => s
  | s :: rest => s ++ "; " ++ joinSemi rest

/-- Python `str.title()` : an alphabetic character is uppercased when the
preceding character is not alphabetic, lowercased otherwise. -/
def upperChar (c : Char) : Char :=
  if 97 ≤ c.toNat && c.toNat ≤ 122 then Char.ofNat (c.toNat - 32) else c

def titleAux : Bool → List Char → List Char
  | _, [] => []
  | prevAlpha, c :: rest =>
    if isAlphaChar c then
      (if prevAlpha then lowerChar c else upperChar c) :: titleAux true rest
    else c :: titleAux false rest

def titleStr (l : List Char) : List Char := titleAux false l

/-- Does `pat` occur at the start of `s`? (helper for substring search). -/
def leadsWith : List Char → List Char → Bool
  | [], _ => true
  | _ :: _, [] => false
  | p :: ps, c :: cs => p = c && leadsWith ps cs

/-- Python `pat in s` substring containment. -/
def containsSub (pat : List Char) : List Char → Bool
  | [] => leadsWith pat []
  | c :: cs => leadsWith pat (c :: cs) || containsSub pat cs

/-- `re.search(r'[a-zA-Z]{3,}', s)` : does `s` contain three consecutive
alphabetic characters (equivalently, an alphabetic run of length ≥ 3)? -/
def hasAlphaRun3 : List Char → Bool
  | a :: b :: c :: rest =>
    (isAlphaChar a && isAlphaChar b && isAlphaChar c) || hasAlphaRun3 (b :: c :: rest)
  | _ => false

/-- `re.sub(r'^\d+[\.\)\-]\s*', '', name)` : strip one leading ordinal. -/
def stripOrdinal (l : List Char) : List Char :=
  let ds := l.takeWhile isDigitChar
  let rest := l.dropWhile isDigitChar
  if ds ≠ [] then
    match rest with
    | c :: cs =>
      if c = '.' || c = ')' || c = '-' then cs.dropWhile isWsChar else l
    | [] => l
  else l

/-! ### Numeric parsing (`int(...)` and `float(...)` on regex captures) -/

def digitsVal : List Char → Nat
  | [] => 0
  | c :: rest => digitsVal rest + c.toNat.sub 48 * 10 ^ rest.length

/-- Python `int(s)` on a capture of `\d+` : defined when the string is a
non-empty digit run, `none` models `ValueError`. -/
def parseNat (l : List Char) : Option Nat :=
  if l ≠ [] && l.all isDigitChar then some (digitsVal l) else none

/-- Python `float(s)` on a capture of `\d+\.\d{2}` :
integer part plus two-digit fraction, exact as a rational.
`none` models `ValueError` for any other shape. -/
def parseMoney (l : List Char) : Option ℚ :=
  let intPart := l.takeWhile isDigitChar
  let rest := l.dropWhile isDigitChar
  match rest with
  | '.' :: frac =>
    if intPart ≠ [] && frac ≠ [] && frac.all isDigitChar then
      some ((digitsVal intPart : ℚ) + (digitsVal frac : ℚ) / 10 ^ frac.length)
    else none
  | _ => none

/-! ### Regex engine

A small backtracking matcher sufficient for the concrete patterns of
`services/receipt_parser.py` (all of whose quantifiers range over single
character classes).  `cands` returns, in Python's backtracking priority
order, the list of (remaining input, captured groups) pairs for matches
of the pattern against a prefix of the input; the head of the list is the
match Python's `re` would pick at that position. -/

inductive Re where
  | cls : (Char → Bool) → Re
  | lit : List Char → Re
  | seq : Re → Re → Re
  | alt : Re → Re → Re
  | star : (Char → Bool) → Re
  | plus : (Char → Bool) → Re
  | lazyPlus : (Char → Bool) → Re
  | rep : (Char → Bool) → Nat → Re
  | eos : Re
  | group : String → Re → Re

/-- Case-insensitive literal match (the parser compiles every pattern with
`re.IGNORECASE`; literals are given lowercase). -/
def matchLit : List Char → List Char → Option (List Char)
  | [], s => some s
  | _ :: _, [] => none
  | p :: ps, c :: cs => if lowerChar c = p then matchLit ps cs else none

/-- Match exactly `n` characters of class `p` (`\d{n}`). -/
def matchRep (p : Char → Bool) : Nat → List Char → Option (List Char)
  | 0, s => some s
  | _ + 1, [] => none
  | n + 1, c :: cs => if p c then matchRep p n cs else none

abbrev Caps := List (String × List Char)

def cands : Re → List Char → List (List Char × Caps)
  | .cls p, s =>
    match s with
    | [] => []
    | c :: cs => if p c then [(cs, [])] else []
  | .lit l, s =>
    match matchLit l s with
    | some rest => [(rest, [])]
    | none => []
  | .seq r1 r2, s =>
    (cands r1 s).flatMap fun rc1 =>
      (cands r2 rc1.1).map fun rc2 => (rc2.1, rc1.2 ++ rc2.2)
  | .alt r1 r2, s => cands r1 s ++ cands r2 s
  | .star p, s =>
    let n := (s.takeWhile p).length
    (List.range (n + 1)).map fun k => (s.drop (n - k), [])
  | .plus p, s =>
    let n := (s.takeWhile p).length
    (List.range n).map fun k => (s.drop (n - k), [])
  | .lazyPlus p, s =>
    let n := (s.takeWhile p).length
    (List.range n).map fun k => (s.drop (k + 1), [])
  | .rep p n, s =>
    match matchRep p n s with
    | some rest => [(rest, [])]
    | none => []
  | .eos, s => if s = [] || s = ['\n'] then [(s, [])] else []
  | .group name r, s =>
    (cands r s).map fun rc => (rc.1, (name, s.take (s.length - rc.1.length)) :: rc.2)

/-- `pattern.match` at the current position: Python's backtracking picks the
first candidate. -/
def matchHere (re : Re) (s : List Char) : Option (List Char × Caps) :=
  (cands re s).head?

/-- `pattern.search` : leftmost position admitting a match; returns the
captures and the remaining input after the match. -/
def reSearch (re : Re) : List Char → Option (Caps × List Char)
  | [] =>
    match matchHere re [] with
    | some rc => some (rc.2, rc.1)
    | none => none
  | c :: cs =>
    match matchHere re (c :: cs) with
    | some rc => some (rc.2, rc.1)
    | none => reSearch re cs

/-- `pattern.finditer` : repeated leftmost search, resuming after each match
(all the patterns used here consume at least one character, so the fuel
`s.length + 1` is never exhausted). -/
def finditerAux (re : Re) : Nat → List Char → List Caps
  | 0, _ => []
  | fuel + 1, s =>
    match reSearch re s with
    | none => []
    | some (caps, rest) => caps :: finditerAux re fuel rest

def finditer (re : Re) (s : List Char) : List Caps :=
  finditerAux re (s.length + 1) s

/-- `match.groupdict()[name]` lookup. -/
def capLookup (caps : Caps) (name : String) : Option (List Char) :=
  match caps with
  | [] => none
  | (k, v) :: rest => if k = name then some v else capLookup rest name

/-! ### Data model (`models/`) -/

/-- `models/extracted_item.py` : `ExtractedItem` dataclass.  The `id` field
(a uuid in the source) is an opaque string. -/
structure ExtractedItem where
  name : String
  total_price : ℚ
  confidence_score : ℚ
  quantity : Option Nat := none
  unit_price : Option ℚ := none
  is_special_charge : Bool := false
  assigned_people : List String := []
  id : String := ""
  deriving DecidableEq, Repr

/-- `ExtractedItem.__post_init__` : validation (`.error` models the raised
`ValueError`) followed by the unit-price / total-price fixups. -/
def ExtractedItem.postInit (it : ExtractedItem) : Except String ExtractedItem :=
  if it.total_price < 0 then .error "Total price cannot be negative"
  else if it.confidence_score < 0 || it.confidence_score > 1 then
    .error "Confidence score must be between 0 and 1"
  else if it.quantity.any (fun q => q ≤ 0) then .error "Quantity must be positive"
  else if it.unit_price.any (fun u => u < 0) then .error "Unit price cannot be negative"
  else
    let it :=
      if it.quantity.any (fun q => q ≠ 0) && it.unit_price = none then
        { it with unit_price := it.quantity.map fun q => it.total_price / q }
      else it
    let it :=
      if it.quantity.any (fun q => q ≠ 0) && it.unit_price.any (fun u => u ≠ 0)
          && it.total_price = 0 then
        { it with total_price := (it.quantity.getD 0 : ℚ) * it.unit_price.getD 0 }
      else it
    .ok it

/-- `ExtractedItem.price_per_person`. -/
def ExtractedItem.price_per_person (it : ExtractedItem) : ℚ :=
  if it.assigned_people = [] then 0
  else it.total_price / it.assigned_people.length

/-- `ExtractedItem.remove_person`. -/
def ExtractedItem.remove_person (it : ExtractedItem) (n : String) : ExtractedItem :=
  { it with assigned_people := it.assigned_people.filter (· ≠ n) }

/-- `models/expense.py` : `Expense` dataclass. -/
structure Expense where
  item_name : String
  total_price : ℚ
  people_included : List String
  quantity : Option Nat := none
  unit_price : Option ℚ := none
  confidence_score : Option ℚ := none
  is_special_charge : Bool := false
  deriving DecidableEq, Repr

/-- `Expense.price_per_person`. -/
def Expense.price_per_person (e : Expense) : ℚ :=
  if e.people_included = [] then 0
  else e.total_price / e.people_included.length

/-- `models/person.py` : `Person` dataclass (`items` is a Python set). -/
structure Person where
  name : String
  total_owed : ℚ := 0
  items : Finset String := ∅
  deriving DecidableEq

/-- `Person.add_expense`. -/
def Person.add_expense (p : Person) (item_name : String) (amount : ℚ) : Person :=
  { p with total_owed := p.total_owed + amount, items := insert item_name p.items }

/-- `models/receipt_data.py` : `ReceiptData` dataclass. -/
structure ReceiptData where
  items : List ExtractedItem := []
  participants : List String := []
  total_amount : ℚ := 0
  extraction_confidence : ℚ := 0
  filename : Option String := none
  processing_errors : List String := []
  deriving DecidableEq

def sumPrices (items : List ExtractedItem) : ℚ :=
  (items.map ExtractedItem.total_price).sum

def sumConfidences (items : List ExtractedItem) : ℚ :=
  (items.map ExtractedItem.confidence_score).sum

/-- `ReceiptData.__post_init__` fixups: derive the total and the average
confidence when they were not supplied (Python truthiness: `not 0.0`). -/
def ReceiptData.postInit (r : ReceiptData) : ReceiptData :=
  let r :=
    if r.total_amount = 0 && r.items ≠ [] then
      { r with total_amount := sumPrices r.items }
    else r
  if r.extraction_confidence = 0 && r.items ≠ [] then
    { r with extraction_confidence := sumConfidences r.items / r.items.length }
  else r

/-- `ReceiptData.calculated_total`. -/
def ReceiptData.calculated_total (r : ReceiptData) : ℚ := sumPrices r.items

/-- `ReceiptData._recalculate_totals`. -/
def ReceiptData.recalculateTotals (r : ReceiptData) : ReceiptData :=
  if r.items ≠ [] then
    { r with
      total_amount := r.calculated_total,
      extraction_confidence := sumConfidences r.items / r.items.length }
  else { r with total_amount := 0, extraction_confidence := 0 }

/-- `ReceiptData.add_item`. -/
def ReceiptData.add_item (r : ReceiptData) (it : ExtractedItem) : ReceiptData :=
  ReceiptData.recalculateTotals { r with items := r.items ++ [it] }

/-- `ReceiptData.remove_item` : also returns the `bool` result. -/
def ReceiptData.remove_item (r : ReceiptData) (item_id : String) :
    ReceiptData × Bool :=
  let items := r.items.filter fun it => it.id ≠ item_id
  if items.length < r.items.length then
    (ReceiptData.recalculateTotals { r with items := items }, true)
  else (r, false)

/-! ### Receipt parser (`services/receipt_parser.py`) -/

/-- `ParsedLine` helper dataclass. -/
structure ParsedLine where
  text : List Char
  item_name : Option String := none
  quantity : Option Nat := none
  unit_price : Option ℚ := none
  total_price : Option ℚ := none
  confidence_score : ℚ := 0
  is_special_charge : Bool := false
  deriving DecidableEq, Repr

namespace ReceiptParser

/-- The character class `[A-Za-z0-9\s&\-\'\.]` of the item-name captures. -/
def nameClass (c : Char) : Bool :=
  isAlphaChar c || isDigitChar c || isWsChar c || c = '&' || c = '-' ||
    c = '\'' || c = '.'

/-- The sub-pattern `\d+\.\d{2}` for monetary amounts. -/
def amountRe : Re := .seq (.plus isDigitChar) (.seq (.cls (· = '.')) (.rep isDigitChar 2))

/-- `ITEM_PATTERNS[0]` :
`(?P<quantity>\d+)\s*x\s+(?P<name>[A-Za-z0-9\s&\-\'\.]+?)\s+(?P<unit_price>\d+\.\d{2})\s+(?P<price>\d+\.\d{2})`. -/
def itemPatternQxNameUnitPrice : Re :=
  .seq (.group "quantity" (.plus isDigitChar))
    (.seq (.star isWsChar)
      (.seq (.lit ['x'])
        (.seq (.plus isWsChar)
          (.seq (.group "name" (.lazyPlus nameClass))
            (.seq (.plus isWsChar)
              (.seq (.group "unit_price" amountRe)
                (.seq (.plus isWsChar) (.group "price" amountRe))))))))

/-- `ITEM_PATTERNS[1]` :
`(?P<quantity>\d+)\s+(?P<name>[A-Za-z0-9\s&\-\'\.]+?)\s+(?P<price>\d+\.\d{2})`. -/
def itemPatternQNamePrice : Re :=
  .seq (.group "quantity" (.plus isDigitChar))
    (.seq (.plus isWsChar)
      (.seq (.group "name" (.lazyPlus nameClass))
        (.seq (.plus isWsChar) (.group "price" amountRe))))

/-- `ITEM_PATTERNS[2]` :
`(?P<name>[A-Za-z0-9\s&\-\'\.]+?)\s+(?P<price>\d+\.\d{2})`. -/
def itemPatternNamePrice : Re :=
  .seq (.group "name" (.lazyPlus nameClass))
    (.seq (.plus isWsChar) (.group "price" amountRe))

/-- `ITEM_PATTERNS`, in source order. -/
def itemPatterns : List Re :=
  [itemPatternQxNameUnitPrice, itemPatternQNamePrice, itemPatternNamePrice]

/-- The separator sub-pattern `\s*(?::|$|\s)\s*` shared by the
special-charge patterns. -/
def sepRe : Re :=
  .seq (.star isWsChar)
    (.seq (.alt (.cls (· = ':')) (.alt .eos (.cls isWsChar))) (.star isWsChar))

/-- `SPECIAL_CHARGE_PATTERNS[0]` :
`(?:tip|gratuity)\s*(?::|$|\s)\s*(?P<amount>\d+\.\d{2})` (wrapped in a
group standing for `match.group(0)`). -/
def tipPattern : Re :=
  .group "g0" (.seq (.alt (.lit "tip".data) (.lit "gratuity".data))
    (.seq sepRe (.group "amount" amountRe)))

/-- `SPECIAL_CHARGE_PATTERNS[1]` :
`(?:service\s*(?:charge|fee))\s*(?::|$|\s)\s*(?P<amount>\d+\.\d{2})`. -/
def servicePattern : Re :=
  .group "g0" (.seq
    (.seq (.lit "service".data)
      (.seq (.star isWsChar) (.alt (.lit "charge".data) (.lit "fee".data))))
    (.seq sepRe (.group "amount" amountRe)))

/-- `SPECIAL_CHARGE_PATTERNS[2]` :
`(?:delivery\s*(?:charge|fee))\s*(?::|$|\s)\s*(?P<amount>\d+\.\d{2})`. -/
def deliveryPattern : Re :=
  .group "g0" (.seq
    (.seq (.lit "delivery".data)
      (.seq (.star isWsChar) (.alt (.lit "charge".data) (.lit "fee".data))))
    (.seq sepRe (.group "amount" amountRe)))

def specialChargePatterns : List Re := [tipPattern, servicePattern, deliveryPattern]

/-- `SPECIAL_CHARGE_KEYWORDS`. -/
def specialChargeKeywordsTip : List String := ["tip", "gratuity"]
def specialChargeKeywordsService : List String := ["service fee", "service charge", "service"]
def specialChargeKeywordsDelivery : List String := ["delivery fee", "delivery charge", "delivery"]

/-- The conservative character class `[\w\s\.\$\:]` kept by `_clean_text`. -/
def keepChar (c : Char) : Bool :=
  isWordChar c || isWsChar c || c = '.' || c = '$' || c = ':'

/-- `ReceiptParser._clean_text`. -/
def clean_text (text : List Char) : List Char :=
  let text := lowerStr text
  let text := collapseWs text
  let text := text.filter keepChar
  let text := text.filter (· ≠ '$')
  let lines := (splitOnNl text).map pyStrip
  let lines := lines.filter (· ≠ [])
  joinNl lines

/-- The pattern loop of `_parse_lines` : `pattern.search` for each item
pattern in order, stopping at the first match. -/
def tryItemPatterns : List Re → List Char → Option Caps
  | [], _ => none
  | p :: ps, line =>
    match reSearch p line with
    | some (caps, _) => some caps
    | none => tryItemPatterns ps line

/-- `ReceiptParser._calculate_confidence_score`. -/
def calculate_confidence_score (pl : ParsedLine) : ℚ :=
  let score : ℚ := 0
  let score := match pl.item_name with
    | some n => if n ≠ "" then score + 3/10 else score
    | none => score
  let score := if pl.total_price.isSome then score + 3/10 else score
  let score := if pl.quantity.isSome then score + 15/100 else score
  let score := if pl.unit_price.isSome then score + 15/100 else score
  let score := match pl.item_name with
    | some n => if n ≠ "" && hasAlphaRun3 n.data then score + 1/10 else score - 1/10
    | none => score - 1/10
  let score := match pl.total_price with
    | some p => if p ≠ 0 && (1/100 ≤ p && p ≤ 1000) then score + 1/10 else score - 1/10
    | none => score - 1/10
  max 0 (min 1 score)

/-- `ReceiptParser._extract_item_from_match`. -/
def extract_item_from_match (caps : Caps) (pl : ParsedLine) : ParsedLine :=
  let pl := match capLookup caps "name" with
    | some v => { pl with item_name := some (String.mk (pyStrip v)) }
    | none => pl
  let pl := match capLookup caps "quantity" with
    | some v => { pl with quantity := parseNat v }
    | none => pl
  let pl := match capLookup caps "unit_price" with
    | some v => { pl with unit_price := parseMoney v }
    | none => pl
  let pl := match capLookup caps "price" with
    | some v => { pl with total_price := parseMoney v }
    | none => pl
  { pl with confidence_score := calculate_confidence_score pl }

/-- The per-line body of `ReceiptParser._parse_lines` : try the item
patterns in order, first match wins, no match drops the line. -/
def classifyLine (line : List Char) : Option ParsedLine :=
  match tryItemPatterns itemPatterns line with
  | some caps => some (extract_item_from_match caps { text := line })
  | none => none

/-- `ReceiptParser._parse_lines`. -/
def parse_lines (lines : List (List Char)) : List ParsedLine :=
  lines.filterMap classifyLine

/-- `ReceiptParser._determine_special_charge_type`. -/
def determine_special_charge_type (text : List Char) : String :=
  let text := lowerStr text
  if specialChargeKeywordsTip.any (fun k => containsSub k.data text) then "Tip"
  else if specialChargeKeywordsService.any (fun k => containsSub k.data text) then
    "Service Charge"
  else if specialChargeKeywordsDelivery.any (fun k => containsSub k.data text) then
    "Delivery Fee"
  else "Other Charge"

/-- The index dispatch inside `_extract_special_charges` (`match.group(0)`
is the `"g0"` capture). -/
def chargeTypeOfIndex (i : Nat) (caps : Caps) : String :=
  if i = 0 then "Tip"
  else if i = 1 then "Service Charge"
  else if i = 2 then "Delivery Fee"
  else determine_special_charge_type ((capLookup caps "g0").getD [])

/-- `ReceiptParser._extract_special_charges` : for each pattern, every
non-overlapping match yields one special-charge item; a `ValueError`
(from `float` or the item constructor) skips the match. -/
def extract_special_charges (text : List Char) : List ExtractedItem :=
  ((specialChargePatterns.enum).flatMap fun pi =>
    (finditer pi.2 text).filterMap fun caps =>
      match capLookup caps "amount" with
      | some v =>
        match parseMoney v with
        | some amount =>
          match ExtractedItem.postInit
              { name := chargeTypeOfIndex pi.1 caps,
                total_price := amount,
                confidence_score := 9/10,
                is_special_charge := true } with
          | .ok it => some it
          | .error _ => none
        | none => none
      | none => none)

/-- `ReceiptParser._convert_to_extracted_items` : the Python loop raises
(propagating a `ValueError` from `ExtractedItem.__post_init__`) at the
first invalid item, so the embedding is an `Except`-valued fold. -/
def convert_to_extracted_items : List ParsedLine → Except String (List ExtractedItem)
  | [] => .ok []
  | l :: rest =>
    match l.item_name, l.total_price with
    | some n, some p =>
      if n ≠ "" then
        match ExtractedItem.postInit
            { name := String.mk (titleStr n.data),
              total_price := p,
              quantity := l.quantity,
              unit_price := l.unit_price,
              confidence_score := l.confidence_score,
              is_special_charge := l.is_special_charge } with
        | .ok it =>
          match convert_to_extracted_items rest with
          | .ok its => .ok (it :: its)
          | .error e => .error e
        | .error e => .error e
      else convert_to_extracted_items rest
    | _, _ => convert_to_extracted_items rest

/-- `ReceiptParser._clean_item_name`. -/
def clean_item_name (name : String) : String :=
  let l := pyStrip name.data
  let l := collapseWs l
  let l := stripOrdinal l
  String.mk (titleStr l)

/-- `ReceiptParser._clean_and_validate_items`. -/
def clean_and_validate_items (items : List ExtractedItem) : List ExtractedItem :=
  items.filterMap fun it =>
    if it.name = "" || String.mk (pyStrip it.name.data) = "" then none
    else if it.total_price ≤ 0 then none
    else some { it with name := clean_item_name it.name }

/-- `ReceiptParser.parse_receipt_text` : `.error` models the raised
`ReceiptParsingError`. -/
def parse_receipt_text (text : List Char) : Except String (List ExtractedItem) :=
  if text = [] || pyStrip text = [] then
    .error "The receipt text is empty or blank"
  else
    let cleaned_text := clean_text text
    let parsing_errors : List String :=
      if cleaned_text = [] || cleaned_text.length < 10 then
        ["Receipt text too short after cleaning"]
      else []
    let lines := splitOnNl cleaned_text
    let parsing_errors :=
      if lines.length < 2 then parsing_errors ++ ["Too few lines in receipt text"]
      else parsing_errors
    let parsed_lines := parse_lines lines
    let parsing_errors :=
      if parsed_lines = [] then
        parsing_errors ++ ["No valid items found in receipt lines"]
      else parsing_errors
    let special_charges := extract_special_charges cleaned_text
    match convert_to_extracted_items parsed_lines with
    | .error e =>
      .error ("Failed to parse receipt text: " ++ e ++
        (if parsing_errors ≠ [] then
          " Additional errors: " ++ joinSemi parsing_errors
        else ""))
    | .ok converted =>
      let items := converted ++ special_charges
      let items := clean_and_validate_items items
      if items = [] then
        .error ("No valid items could be extracted from the receipt" ++
          (if parsing_errors ≠ [] then ": " ++ joinSemi parsing_errors else ""))
      else .ok items

/-- Stage view used to state properties of `parse_receipt_text` : the
classified lines of the cleaned text. -/
def pipelineParsedLines (text : List Char) : List ParsedLine :=
  parse_lines (splitOnNl (clean_text text))

/-- Stage view: the merged, validated item list (an `Except` because the
conversion stage can raise). -/
def pipelineItems (text : List Char) : Except String (List ExtractedItem) :=
  match convert_to_extracted_items (pipelineParsedLines text) with
  | .error e => .error e
  | .ok converted =>
    .ok (clean_and_validate_items (converted ++ extract_special_charges (clean_text text)))

/-- The diagnostics `parse_receipt_text` accumulates in `parsing_errors`. -/
def pipelineDiagnostics (text : List Char) : List String :=
  let cleaned := clean_text text
  let es :=
    if cleaned = [] || cleaned.length < 10 then
      ["Receipt text too short after cleaning"]
    else []
  let es :=
    if (splitOnNl cleaned).length < 2 then es ++ ["Too few lines in receipt text"]
    else es
  if pipelineParsedLines text = [] then
    es ++ ["No valid items found in receipt lines"]
  else es

/-- Follows the spec's words (§4.5 and §7, not the code): a classified
line whose item construction fails is an item-level defect and is dropped
silently, so the final merged validated list always exists.  Used to
compare the code's behaviour with the claim's model of the pipeline. -/
def specConvertItems (pls : List ParsedLine) : List ExtractedItem :=
  pls.filterMap fun l =>
    match l.item_name, l.total_price with
    | some n, some p =>
      if n ≠ "" then
        (ExtractedItem.postInit
          { name := String.mk (titleStr n.data),
            total_price := p,
            quantity := l.quantity,
            unit_price := l.unit_price,
            confidence_score := l.confidence_score,
            is_special_charge := l.is_special_charge }).toOption
      else none
    | _, _ => none

/-- Follows the spec's words (§4.6): the final merged, validated item
list of the pipeline, with item-level construction defects dropped
rather than raised. -/
def specFinalItems (text : List Char) : List ExtractedItem :=
  clean_and_validate_items
    (specConvertItems (pipelineParsedLines text) ++
      extract_special_charges (clean_text text))

end ReceiptParser

/-- Is an `Except` result an error (did the Python call raise)? -/
def isErr : Except String (List ExtractedItem) → Bool
  | .error _ => true
  | .ok _ => false

/-! ### Expense calculator (`services/expense_calculator.py`) -/

namespace ExpenseCalculator

/-- The `isinstance` dispatch of `calculate_debts` : price per person,
item name and participant list of either item shape. -/
def expenseFields : Expense ⊕ ExtractedItem → ℚ × String × List String
  | .inl e => (e.price_per_person, e.item_name, e.people_included)
  | .inr x => (x.price_per_person, x.name, x.assigned_people)

/-- The body of the inner loop: create the person on first sight
(Python dicts keep insertion order, modelled by an association list),
then `add_expense`. -/
def chargePerson (people : List (String × Person)) (person_name item_name : String)
    (amount : ℚ) : List (String × Person) :=
  let people :=
    if (people.lookup person_name).isSome then people
    else people ++ [(person_name, { name := person_name })]
  people.map fun kp =>
    if kp.1 = person_name then (kp.1, kp.2.add_expense item_name amount) else kp

/-- `ExpenseCalculator.calculate_debts`. -/
def calculate_debts (expenses : List (Expense ⊕ ExtractedItem)) :
    List (String × Person) :=
  expenses.foldl
    (fun people expense =>
      let f := expenseFields expense
      f.2.2.foldl (fun ps n => chargePerson ps n f.2.1 f.1) people)
    []

/-- `ExpenseCalculator.calculate_from_receipt`. -/
def calculate_from_receipt (r : ReceiptData) : List (String × Person) :=
  calculate_debts (r.items.map Sum.inr)

/-- The result dictionary of `validate_receipt_totals`. -/
structure ValidationResult where
  receipt_total : ℚ
  calculated_total : ℚ
  person_totals_sum : ℚ
  is_valid : Bool
  difference : ℚ
  deriving DecidableEq

/-- `ExpenseCalculator.validate_receipt_totals`. -/
def validate_receipt_totals (r : ReceiptData) : ValidationResult :=
  let receipt_total := r.total_amount
  let calculated_total := r.calculated_total
  let people := calculate_from_receipt r
  let person_totals_sum := (people.map fun kp => kp.2.total_owed).sum
  { receipt_total := receipt_total,
    calculated_total := calculated_total,
    person_totals_sum := person_totals_sum,
    is_valid := |receipt_total - person_totals_sum| < 1/100,
    difference := receipt_total - person_totals_sum }

/-- The participant loop of `calculate_debts` over a single item. -/
def chargeAll (people : List (String × Person)) (names : List String)
    (item_name : String) (amount : ℚ) : List (String × Person) :=
  names.foldl (fun ps n => chargePerson ps n item_name amount) people

/-- Sequential `Person.add_expense` over a list of (item name, amount)
charges; describes what one ledger accumulates. -/
def addAllCharges (p : Person) (l : List (String × ℚ)) : Person :=
  l.foldl (fun q c => q.add_expense c.1 c.2) p

/-- The (item name, price-per-person) charges a given participant receives
from an expense list. -/
def chargesFor (person_name : String) (es : List (Expense ⊕ ExtractedItem)) :
    List (String × ℚ) :=
  (es.filter fun e => person_name ∈ (expenseFields e).2.2).map fun e =>
    ((expenseFields e).2.1, (expenseFields e).1)

end ExpenseCalculator

/-! ### Concrete inputs used by witnesses and counterexamples -/

/-- A line each of the three item patterns matches. -/
def exLine : List Char := "2 x coffee 3.50 7.00".data

/-- Scenario items: Pizza 20.00 shared by Alice and Bob, Salad 10.00 for
Alice alone. -/
def exPizza : ExtractedItem :=
  { name := "Pizza", total_price := 20, confidence_score := 9/10,
    assigned_people := ["Alice", "Bob"], id := "p" }

def exSalad : ExtractedItem :=
  { name := "Salad", total_price := 10, confidence_score := 8/10,
    assigned_people := ["Alice"], id := "s" }

def exExpenses : List (Expense ⊕ ExtractedItem) := [.inr exPizza, .inr exSalad]

/-- A receipt whose ledger-total difference is exactly 0.01 : one item of
price 0.01 assigned to nobody, declared total 0.01. -/
def exReceiptBoundary : ReceiptData :=
  ReceiptData.postInit
    { items := [{ name := "Widget", total_price := 1/100,
                  confidence_score := 1/2, id := "w" }],
      total_amount := 1/100 }

/-- A receipt with a declared total differing from its item sum. -/
def exReceiptDeclared : ReceiptData :=
  ReceiptData.postInit
    { items := [{ name := "Apple", total_price := 3, confidence_score := 1/2,
                  id := "a" }],
      total_amount := 10, extraction_confidence := 1/4 }

/-- Receipt text whose classified line has quantity 0 while a tip charge
would survive validation. -/
def exTextQtyZero : List Char := "0 coffee 5.00 tip 2.00".data

/-- Receipt text yielding one valid item. -/
def exTextTea : List Char := "tea 2.00\nzz".data

/-! ## Theorems -/

open ReceiptParser ExpenseCalculator

/-- C4: for both item shapes, price-per-person is the total price divided
by the number of assigned participants when the participant list is
non-empty (so it multiplies back to the total exactly), and 0 when the
participant list is empty. -/
theorem C4_price_per_person (it : ExtractedItem) (e : Expense) :
    (it.assigned_people ≠ [] →
      it.price_per_person * it.assigned_people.length = it.total_price) ∧
    (it.assigned_people = [] → it.price_per_person = 0) ∧
    (e.people_included ≠ [] →
      e.price_per_person * e.people_included.length = e.total_price) ∧
    (e.people_included = [] → e.price_per_person = 0) := by
  refine ⟨fun h => ?_, fun h => ?_, fun h => ?_, fun h => ?_⟩
  · have hlen : ((it.assigned_people.length : ℚ)) ≠ 0 := by
      exact_mod_cast (List.length_pos.mpr h).ne'
    rw [ExtractedItem.price_per_person, if_neg h, div_mul_cancel₀ _ hlen]
  · rw [ExtractedItem.price_per_person, if_pos h]
  · have hlen : ((e.people_included.length : ℚ)) ≠ 0 := by
      exact_mod_cast (List.length_pos.mpr h).ne'
    rw [Expense.price_per_person, if_neg h, div_mul_cancel₀ _ hlen]
  · rw [Expense.price_per_person, if_pos h]

theorem C4_witness :
    exPizza.price_per_person * exPizza.assigned_people.length = exPizza.total_price ∧
    (Expense.mk "Solo" 5 [] none none none false).price_per_person = 0 :=
  ⟨(C4_price_per_person exPizza (Expense.mk "Solo" 5 [] none none none false)).1
      (by decide),
    (C4_price_per_person exPizza (Expense.mk "Solo" 5 [] none none none false)).2.2.2
      rfl⟩

/-- C1 counterexample: a receipt whose signed difference is exactly 0.01 is
declared invalid by the code, while the claim's `≤ 0.01` tolerance would
declare it valid. -/
theorem C1_counterexample :
    |(validate_receipt_totals exReceiptBoundary).receipt_total -
      (validate_receipt_totals exReceiptBoundary).person_totals_sum| ≤ 1/100 ∧
    (validate_receipt_totals exReceiptBoundary).is_valid = false ∧
    (validate_receipt_totals exReceiptBoundary).difference = 1/100 := by
  with_unfolding_all decide

/-- C1 (amended): `validate_receipt_totals` declares the reconciliation
valid exactly when the absolute difference between the declared receipt
total and the sum of all per-person ledger totals is strictly less than
0.01, and reports the signed difference; it returns this result (the
embedding is a total function, mirroring that the Python code raises no
exception). -/
theorem C1_validate_receipt_totals (r : ReceiptData) :
    ((validate_receipt_totals r).is_valid = true ↔
      |r.total_amount - (validate_receipt_totals r).person_totals_sum| < 1/100) ∧
    (validate_receipt_totals r).difference =
      r.total_amount - (validate_receipt_totals r).person_totals_sum ∧
    (validate_receipt_totals r).receipt_total = r.total_amount ∧
    (validate_receipt_totals r).person_totals_sum =
      ((calculate_debts (r.items.map Sum.inr)).map fun kp => kp.2.total_owed).sum := by
  refine ⟨?_, rfl, rfl, rfl⟩
  simp [validate_receipt_totals]

/-- C10 counterexample: `remove_item` with an id not present in the
receipt skips the recalculation, so a declared total different from the
item sum survives the operation. -/
theorem C10_counterexample :
    (exReceiptDeclared.remove_item "zzz").1.total_amount ≠
      sumPrices (exReceiptDeclared.remove_item "zzz").1.items := by
  with_unfolding_all decide

/-- C10 (amended): after every `add_item`, and after every `remove_item`
call that actually removes an item (returns `True`), the receipt total
equals the sum of the remaining items' prices and the extraction
confidence equals the mean of their confidence scores (both reset to 0
when no items remain), overwriting any value declared at construction.
A `remove_item` call whose id matches nothing leaves both fields
untouched. -/
theorem recalcTotals_items (r : ReceiptData) :
    (r.recalculateTotals).items = r.items := by
  unfold ReceiptData.recalculateTotals
  split <;> rfl

theorem recalcTotals_of_empty (r : ReceiptData) (h : r.items = []) :
    r.recalculateTotals.total_amount = 0 ∧
      r.recalculateTotals.extraction_confidence = 0 := by
  unfold ReceiptData.recalculateTotals
  rw [if_neg (by simp [h])]
  exact ⟨rfl, rfl⟩

theorem recalcTotals_of_ne (r : ReceiptData) (h : r.items ≠ []) :
    r.recalculateTotals.total_amount = sumPrices r.items ∧
      r.recalculateTotals.extraction_confidence =
        sumConfidences r.items / r.items.length := by
  unfold ReceiptData.recalculateTotals
  rw [if_pos h]
  exact ⟨rfl, rfl⟩

theorem C10_recalculated_totals (r : ReceiptData) (it : ExtractedItem)
    (iid : String) (h : (r.remove_item iid).2 = true) :
    ((r.add_item it).total_amount = sumPrices (r.add_item it).items ∧
      (r.add_item it).extraction_confidence =
        sumConfidences (r.add_item it).items / (r.add_item it).items.length) ∧
    ((r.remove_item iid).1.items = [] →
      (r.remove_item iid).1.total_amount = 0 ∧
      (r.remove_item iid).1.extraction_confidence = 0) ∧
    ((r.remove_item iid).1.items ≠ [] →
      (r.remove_item iid).1.total_amount = sumPrices (r.remove_item iid).1.items ∧
      (r.remove_item iid).1.extraction_confidence =
        sumConfidences (r.remove_item iid).1.items /
          (r.remove_item iid).1.items.length) := by
  constructor
  · have hne : (({ r with items := r.items ++ [it] } : ReceiptData)).items ≠ [] := by
      simp
    have h1 := recalcTotals_of_ne _ hne
    unfold ReceiptData.add_item
    rw [recalcTotals_items]
    exact h1
  · unfold ReceiptData.remove_item at h ⊢
    dsimp only at h ⊢
    split at h
    next hlt =>
      rw [if_pos hlt]
      dsimp only
      rw [recalcTotals_items]
      constructor
      · intro hemp
        exact recalcTotals_of_empty _ hemp
      · intro hne2
        exact recalcTotals_of_ne _ hne2
    next hlt =>
      exact absurd h (by simp)

theorem C10_witness :
    (exReceiptDeclared.remove_item "a").2 = true ∧
    (exReceiptDeclared.remove_item "a").1.total_amount = 0 ∧
    (exReceiptDeclared.remove_item "a").1.extraction_confidence = 0 ∧
    (exReceiptDeclared.add_item exSalad).total_amount = 13 := by
  have h := C10_recalculated_totals exReceiptDeclared exSalad "a"
    (by with_unfolding_all decide)
  have h0 := h.2.1 (by with_unfolding_all decide)
  exact ⟨by with_unfolding_all decide, h0.1, h0.2, by with_unfolding_all decide⟩

/-! Text-normalizer lemmas. -/

theorem collapseWsAux_wsSpace (b : Bool) (l : List Char) :
    ∀ c ∈ collapseWsAux b l, ¬isWsChar c ∨ c = ' ' := by
  induction l generalizing b with
  | nil => intro c hc; cases hc
  | cons a rest ih =>
    intro c hc
    unfold collapseWsAux at hc
    by_cases ha : isWsChar a
    · rw [if_pos ha] at hc
      cases b with
      | true => exact ih true c (by simpa using hc)
      | false =>
        rcases (List.mem_cons.mp (by simpa using hc)) with h | h
        · exact Or.inr h
        · exact ih true c h
    · rw [if_neg ha] at hc
      rcases List.mem_cons.mp hc with h | h
      · exact Or.inl (h ▸ ha)
      · exact ih false c h

theorem mem_pyStrip (l : List Char) (c : Char) (h : c ∈ pyStrip l) : c ∈ l := by
  unfold pyStrip at h
  rw [List.mem_reverse] at h
  have h1 := (List.dropWhile_sublist (l := (l.dropWhile isWsChar).reverse)
    (p := isWsChar)).subset h
  rw [List.mem_reverse] at h1
  exact (List.dropWhile_sublist (l := l) (p := isWsChar)).subset h1

theorem splitOnNl_of_noNl (l : List Char) (h : ∀ c ∈ l, c ≠ '\n') :
    splitOnNl l = [l] := by
  induction l with
  | nil => rfl
  | cons c rest ih =>
    unfold splitOnNl
    rw [ih fun d hd => h d (List.mem_cons_of_mem c hd)]
    dsimp only
    rw [if_neg (h c (List.mem_cons_self c rest))]

theorem joinNl_nil : joinNl [] = [] := rfl

theorem joinNl_singleton (l : List Char) : joinNl [l] = l := rfl

theorem filtered_no_newline (text : List Char) :
    ∀ c ∈ ((collapseWs (lowerStr text)).filter keepChar).filter (· ≠ '$'),
      c ≠ '\n' := by
  intro c hc
  have h2 := List.mem_of_mem_filter (List.mem_of_mem_filter hc)
  have h3 : c ∈ collapseWsAux false (lowerStr text) := h2
  rcases collapseWsAux_wsSpace false (lowerStr text) c h3 with h | h
  · intro he; exact h (by rw [he]; decide)
  · intro he; rw [he] at h; cases h

theorem clean_text_characterization (text : List Char) :
    clean_text text =
      pyStrip (((collapseWs (lowerStr text)).filter keepChar).filter (· ≠ '$')) := by
  unfold clean_text
  dsimp only
  rw [splitOnNl_of_noNl _ (filtered_no_newline text)]
  rw [List.map_cons, List.map_nil]
  by_cases h :
      pyStrip (((collapseWs (lowerStr text)).filter keepChar).filter (· ≠ '$')) = []
  · rw [List.filter_cons, if_neg (by simpa using h), List.filter_nil,
      joinNl_nil, h]
  · rw [List.filter_cons, if_pos (by simpa using h), List.filter_nil,
      joinNl_singleton]

/-- C7 counterexample: two non-blank input lines come out as a single
line, because `_clean_text` collapses the newline into a space (step
`re.sub(r'\s+', ' ')`) before it splits on line breaks, contradicting
"one output line per non-blank input line". -/
theorem C7_counterexample :
    clean_text "coffee 1.00\ntea 2.00".data = "coffee 1.00 tea 2.00".data ∧
    (splitOnNl (clean_text "coffee 1.00\ntea 2.00".data)).length = 1 := by
  with_unfolding_all decide

/-- C7 (amended): `_clean_text` lowercases, collapses every whitespace run
(line breaks included) to a single space, strips characters outside the
word/whitespace/period/colon/currency class, removes the currency symbol,
and returns that single line trimmed (empty when nothing survives); since
line breaks are gone before the split, the output never contains a line
break and the split yields exactly one line, not one line per non-blank
input line. -/
theorem C7_clean_text_single_line (text : List Char) :
    clean_text text =
      pyStrip (((collapseWs (lowerStr text)).filter keepChar).filter (· ≠ '$')) ∧
    (clean_text text).all (fun c => !(c == '\n')) = true ∧
    splitOnNl (clean_text text) = [clean_text text] := by
  have hchar := clean_text_characterization text
  have hnl : ∀ c ∈ clean_text text, c ≠ '\n' := by
    intro c hc
    rw [hchar] at hc
    exact filtered_no_newline text c (mem_pyStrip _ c hc)
  refine ⟨hchar, ?_, splitOnNl_of_noNl _ hnl⟩
  rw [List.all_eq_true]
  intro c hc
  simpa using hnl c hc

/-! Normalizer idempotence analysis (C9). -/

theorem toNat_ofNat_valid {n : Nat} (h : n.isValidChar) :
    (Char.ofNat n).toNat = n := by
  unfold Char.ofNat
  rw [dif_pos h]
  rfl

theorem lowerChar_idem (c : Char) : lowerChar (lowerChar c) = lowerChar c := by
  unfold lowerChar
  by_cases h : 65 ≤ c.toNat && c.toNat ≤ 90
  · rw [if_pos h]
    have hb := (Bool.and_eq_true _ _).mp h
    have h90 : c.toNat ≤ 90 := of_decide_eq_true hb.2
    have h65 : 65 ≤ c.toNat := of_decide_eq_true hb.1
    have hv : (c.toNat + 32).isValidChar := Or.inl (by omega)
    have ht : (Char.ofNat (c.toNat + 32)).toNat = c.toNat + 32 :=
      toNat_ofNat_valid hv
    rw [if_neg]
    rw [ht]
    simp only [Bool.and_eq_true, decide_eq_true_eq]
    omega
  · rw [if_neg h, if_neg h]

theorem mem_collapseWsAux (b : Bool) (l : List Char) (c : Char)
    (h : c ∈ collapseWsAux b l) : c = ' ' ∨ c ∈ l := by
  induction l generalizing b with
  | nil => cases h
  | cons a rest ih =>
    unfold collapseWsAux at h
    by_cases ha : isWsChar a
    · rw [if_pos ha] at h
      cases b with
      | true =>
        rcases ih true (by simpa using h) with h1 | h1
        · exact Or.inl h1
        · exact Or.inr (List.mem_cons_of_mem a h1)
      | false =>
        rcases List.mem_cons.mp (by simpa using h) with h1 | h1
        · exact Or.inl h1
        · rcases ih true h1 with h2 | h2
          · exact Or.inl h2
          · exact Or.inr (List.mem_cons_of_mem a h2)
    · rw [if_neg ha] at h
      rcases List.mem_cons.mp h with h1 | h1
      · exact Or.inr (h1 ▸ List.mem_cons_self a rest)
      · rcases ih false h1 with h2 | h2
        · exact Or.inl h2
        · exact Or.inr (List.mem_cons_of_mem a h2)

theorem map_id_of_mem {α : Type} {f : α → α} :
    ∀ l : List α, (∀ c ∈ l, f c = c) → l.map f = l
  | [], _ => rfl
  | a :: rest, h => by
    rw [List.map_cons, h a (List.mem_cons_self a rest),
      map_id_of_mem rest fun c hc => h c (List.mem_cons_of_mem a hc)]

theorem collapseWsAux_head_true (l : List Char) :
    ∀ c, (collapseWsAux true l).head? = some c → isWsChar c = false := by
  induction l with
  | nil => intro c h; cases h
  | cons a rest ih =>
    intro c h
    unfold collapseWsAux at h
    by_cases ha : isWsChar a
    · rw [if_pos ha] at h
      exact ih c (by simpa using h)
    · rw [if_neg ha] at h
      have : a = c := by simpa using h
      rw [← this]
      simpa using ha

theorem collapseWsAux_chain (l : List Char) (b : Bool) :
    List.Chain' (fun a c => ¬(a = ' ' ∧ c = ' ')) (collapseWsAux b l) := by
  induction l generalizing b with
  | nil => simp [collapseWsAux]
  | cons a rest ih =>
    unfold collapseWsAux
    by_cases ha : isWsChar a
    · rw [if_pos ha]
      cases b with
      | true => exact ih true
      | false =>
        rw [if_neg (by simp)]
        refine List.chain'_cons'.mpr ⟨?_, ih true⟩
        intro y hy
        have := collapseWsAux_head_true rest y hy
        intro hand
        rw [hand.2] at this
        cases this
    · rw [if_neg ha]
      refine List.chain'_cons'.mpr ⟨?_, ih false⟩
      intro y _
      intro hand
      rw [hand.1] at ha
      exact ha (by decide)

theorem chain_flip_nosp {l : List Char}
    (h : List.Chain' (flip fun a c => ¬(a = ' ' ∧ c = ' ')) l) :
    List.Chain' (fun a c => ¬(a = ' ' ∧ c = ' ')) l := by
  refine List.Chain'.imp ?_ h
  intro a c hac hand
  exact hac ⟨hand.2, hand.1⟩

theorem chain_pyStrip {l : List Char}
    (h : List.Chain' (fun a c => ¬(a = ' ' ∧ c = ' ')) l) :
    List.Chain' (fun a c => ¬(a = ' ' ∧ c = ' ')) (pyStrip l) := by
  unfold pyStrip
  rw [List.chain'_reverse]
  apply List.Chain'.suffix ?hy (List.dropWhile_suffix isWsChar)
  case hy =>
    rw [List.chain'_reverse]
    apply List.Chain'.imp ?imp
      (List.Chain'.suffix h (List.dropWhile_suffix isWsChar))
    intro a c hac
    exact hac

theorem dropWhile_head_not (p : Char → Bool) (l : List Char) :
    ∀ c, (l.dropWhile p).head? = some c → p c = false := by
  induction l with
  | nil => intro c h; cases h
  | cons a rest ih =>
    intro c h
    rw [List.dropWhile_cons] at h
    by_cases ha : p a
    · rw [if_pos (by simpa using ha)] at h
      exact ih c h
    · rw [if_neg (by simpa using ha)] at h
      have : a = c := by simpa using h
      rw [← this]
      simpa using ha

theorem dropWhile_eq_self_of_head (p : Char → Bool) (l : List Char)
    (h : ∀ c, l.head? = some c → p c = false) : l.dropWhile p = l := by
  cases l with
  | nil => rfl
  | cons a rest =>
    rw [List.dropWhile_cons, if_neg]
    simp [h a rfl]

theorem dropWhile_idem (p : Char → Bool) (l : List Char) :
    (l.dropWhile p).dropWhile p = l.dropWhile p :=
  dropWhile_eq_self_of_head p _ (dropWhile_head_not p l)

theorem pyStrip_head_not (l : List Char) :
    ∀ c, (pyStrip l).head? = some c → isWsChar c = false := by
  intro c hc
  unfold pyStrip at hc
  obtain ⟨t, ht⟩ :=
    List.dropWhile_suffix (l := (l.dropWhile isWsChar).reverse) isWsChar
  have hy : l.dropWhile isWsChar =
      ((l.dropWhile isWsChar).reverse.dropWhile isWsChar).reverse ++ t.reverse := by
    have h1 := congrArg List.reverse ht
    rw [List.reverse_append, List.reverse_reverse] at h1
    exact h1.symm
  cases hzr : ((l.dropWhile isWsChar).reverse.dropWhile isWsChar).reverse with
  | nil => rw [hzr] at hc; cases hc
  | cons d ds =>
    rw [hzr] at hc hy
    have hdc : d = c := by simpa using hc
    have hyh : (l.dropWhile isWsChar).head? = some d := by
      rw [hy]; rfl
    rw [← hdc]
    exact dropWhile_head_not isWsChar l d hyh

theorem pyStrip_idem (l : List Char) : pyStrip (pyStrip l) = pyStrip l := by
  have hA : (pyStrip l).dropWhile isWsChar = pyStrip l :=
    dropWhile_eq_self_of_head _ _ (pyStrip_head_not l)
  have hstep : pyStrip (pyStrip l) =
      (((pyStrip l).dropWhile isWsChar).reverse.dropWhile isWsChar).reverse := rfl
  rw [hstep, hA]
  have hrev : (pyStrip l).reverse =
      (l.dropWhile isWsChar).reverse.dropWhile isWsChar := by
    unfold pyStrip
    rw [List.reverse_reverse]
  rw [hrev, dropWhile_idem]
  rfl

theorem collapseWsAux_id (l : List Char)
    (hws : ∀ c ∈ l, isWsChar c → c = ' ')
    (hch : List.Chain' (fun a c => ¬(a = ' ' ∧ c = ' ')) l) :
    collapseWsAux false l = l ∧
      (l.head? ≠ some ' ' → collapseWsAux true l = l) := by
  induction l with
  | nil => exact ⟨rfl, fun _ => rfl⟩
  | cons a rest ih =>
    have hrest := ih (fun c hc hw => hws c (List.mem_cons_of_mem a hc) hw)
      hch.tail
    by_cases ha : isWsChar a
    · have ha' : a = ' ' := hws a (List.mem_cons_self a rest) ha
      subst ha'
      constructor
      · unfold collapseWsAux
        rw [if_pos (by decide), if_neg (by simp)]
        congr 1
        apply hrest.2
        intro hhead
        have hmem : ' ' ∈ rest.head? := by rw [hhead]; rfl
        exact (List.chain'_cons'.mp hch).1 ' ' hmem ⟨rfl, rfl⟩
      · intro hh
        exact absurd rfl hh
    · constructor
      · unfold collapseWsAux
        rw [if_neg ha]
        rw [hrest.1]
      · intro _
        unfold collapseWsAux
        rw [if_neg ha]
        rw [hrest.1]

theorem clean_text_of_good (u : List Char)
    (hlow : ∀ c ∈ u, lowerChar c = c)
    (hkeep : ∀ c ∈ u, keepChar c = true)
    (hdol : ∀ c ∈ u, c ≠ '$') :
    clean_text u = pyStrip (collapseWs u) := by
  rw [clean_text_characterization]
  rw [show lowerStr u = u from map_id_of_mem u hlow]
  have hk : (collapseWs u).filter keepChar = collapseWs u := by
    apply List.filter_eq_self.mpr
    intro c hc
    rcases mem_collapseWsAux false u c hc with h | h
    · rw [h]; decide
    · exact hkeep c h
  rw [hk]
  have hd : (collapseWs u).filter (· ≠ '$') = collapseWs u := by
    apply List.filter_eq_self.mpr
    intro c hc
    rcases mem_collapseWsAux false u c hc with h | h
    · rw [h]; decide
    · simpa using hdol c h
  rw [hd]

theorem clean_text_chars (t : List Char) :
    ∀ c ∈ clean_text t,
      lowerChar c = c ∧ keepChar c = true ∧ c ≠ '$' ∧
        (isWsChar c → c = ' ') := by
  intro c hc
  rw [clean_text_characterization] at hc
  have h1 := mem_pyStrip _ c hc
  have h2 : c ∈ (collapseWs (lowerStr t)).filter keepChar :=
    List.mem_of_mem_filter h1
  have h3 : c ∈ collapseWs (lowerStr t) := List.mem_of_mem_filter h2
  refine ⟨?_, ?_, ?_, ?_⟩
  · rcases mem_collapseWsAux false (lowerStr t) c h3 with h | h
    · rw [h]; decide
    · obtain ⟨d, _, hde⟩ := List.mem_map.mp h
      rw [← hde]
      exact lowerChar_idem d
  · exact List.of_mem_filter h2
  · simpa using List.of_mem_filter h1
  · intro hw
    rcases collapseWsAux_wsSpace false (lowerStr t) c h3 with h | h
    · exact absurd hw h
    · exact h

/-- C9 counterexample: normalizing already-normalized text is not
idempotent: stripping the comma of `"a , b"` leaves two adjacent spaces
in the first output, which the second normalization collapses. -/
theorem C9_counterexample :
    clean_text (clean_text "a , b".data) ≠ clean_text "a , b".data := by
  with_unfolding_all decide

/-- C9 (amended): normalization is not idempotent in general (stripping a
character can merge two whitespace runs, which only the next pass
collapses), but it stabilizes after the second application: re-applying
`_clean_text` to a twice-normalized text is the identity. -/
theorem C9_clean_text_stabilizes (text : List Char) :
    clean_text (clean_text (clean_text text)) = clean_text (clean_text text) := by
  have hgood := clean_text_chars text
  have h2 : clean_text (clean_text text) =
      pyStrip (collapseWs (clean_text text)) :=
    clean_text_of_good _ (fun c hc => (hgood c hc).1)
      (fun c hc => (hgood c hc).2.1) (fun c hc => (hgood c hc).2.2.1)
  have hwmem : ∀ c ∈ pyStrip (collapseWs (clean_text text)),
      c = ' ' ∨ c ∈ clean_text text := fun c hc =>
    mem_collapseWsAux false _ c (mem_pyStrip _ c hc)
  have hwgood : ∀ c ∈ pyStrip (collapseWs (clean_text text)),
      lowerChar c = c ∧ keepChar c = true ∧ c ≠ '$' ∧
        (isWsChar c → c = ' ') := by
    intro c hc
    rcases hwmem c hc with h | h
    · rw [h]
      exact ⟨by decide, by decide, by decide, fun _ => rfl⟩
    · exact hgood c h
  have h3 : clean_text (pyStrip (collapseWs (clean_text text))) =
      pyStrip (collapseWs (pyStrip (collapseWs (clean_text text)))) :=
    clean_text_of_good _ (fun c hc => (hwgood c hc).1)
      (fun c hc => (hwgood c hc).2.1) (fun c hc => (hwgood c hc).2.2.1)
  have hchain : List.Chain' (fun a c => ¬(a = ' ' ∧ c = ' '))
      (pyStrip (collapseWs (clean_text text))) :=
    chain_pyStrip (collapseWsAux_chain (clean_text text) false)
  have hid : collapseWs (pyStrip (collapseWs (clean_text text))) =
      pyStrip (collapseWs (clean_text text)) :=
    (collapseWsAux_id _ (fun c hc hw => (hwgood c hc).2.2.2 hw) hchain).1
  rw [h2, h3, hid, pyStrip_idem]

/-! Confidence scorer (C3). -/

theorem run_cond_eq (n : String) :
    (decide (n ≠ "") && hasAlphaRun3 n.data) = hasAlphaRun3 n.data := by
  by_cases h : n = ""
  · subst h; rfl
  · simp [h]

theorem price_cond_eq (p : ℚ) :
    (decide (p ≠ 0) && (decide (1/100 ≤ p) && decide (p ≤ 1000))) =
      (decide (1/100 ≤ p) && decide (p ≤ 1000)) := by
  by_cases h : 1/100 ≤ p
  · have hne : p ≠ 0 := (lt_of_lt_of_le (by norm_num : (0:ℚ) < 1/100) h).ne'
    simp [h, hne]
  · simp only [decide_eq_false h, Bool.false_and, Bool.and_false]

/-- C3: the confidence score is the clamp to [0,1] of the additive table
(+0.30 name present, +0.30 total price present, +0.15 quantity, +0.15
unit price, ±0.10 for an alphabetic run of length ≥ 3 in the name, ±0.10
for a total price within [0.01, 1000.00]); hence it always lies in [0,1].
"Present" for the name follows Python truthiness (non-`None` and
non-empty). -/
theorem C3_confidence_score (pl : ParsedLine) :
    calculate_confidence_score pl =
      max 0 (min 1 (
        (if pl.item_name.any (fun n => n ≠ "") then (3:ℚ)/10 else 0) +
        (if pl.total_price.isSome then (3:ℚ)/10 else 0) +
        (if pl.quantity.isSome then (15:ℚ)/100 else 0) +
        (if pl.unit_price.isSome then (15:ℚ)/100 else 0) +
        (if pl.item_name.any (fun n => hasAlphaRun3 n.data) then (1:ℚ)/10
         else -(1/10)) +
        (if pl.total_price.any (fun p => 1/100 ≤ p && p ≤ 1000) then (1:ℚ)/10
         else -(1/10)))) ∧
    0 ≤ calculate_confidence_score pl ∧ calculate_confidence_score pl ≤ 1 := by
  have heq : calculate_confidence_score pl =
      max 0 (min 1 (
        (if pl.item_name.any (fun n => n ≠ "") then (3:ℚ)/10 else 0) +
        (if pl.total_price.isSome then (3:ℚ)/10 else 0) +
        (if pl.quantity.isSome then (15:ℚ)/100 else 0) +
        (if pl.unit_price.isSome then (15:ℚ)/100 else 0) +
        (if pl.item_name.any (fun n => hasAlphaRun3 n.data) then (1:ℚ)/10
         else -(1/10)) +
        (if pl.total_price.any (fun p => 1/100 ≤ p && p ≤ 1000) then (1:ℚ)/10
         else -(1/10)))) := by
    obtain ⟨tx, iname, q, uu, tp, cs, sc⟩ := pl
    cases iname with
    | none =>
      cases tp with
      | none =>
        simp only [calculate_confidence_score, Option.any_none, Option.isSome_none,
          decide_eq_true_eq]
        split_ifs <;> first | exact (False.elim (by assumption)) | (congr 1 <;> try congr 1 <;> try ring)
      | some p =>
        simp only [calculate_confidence_score, Option.any_none, Option.any_some,
          Option.isSome_some, decide_eq_true_eq]
        rw [price_cond_eq]
        split_ifs <;> first | exact (False.elim (by assumption)) | (congr 1 <;> try congr 1 <;> try ring)
    | some n =>
      cases tp with
      | none =>
        simp only [calculate_confidence_score, Option.any_none, Option.any_some,
          Option.isSome_none, Option.isSome_some, decide_eq_true_eq]
        rw [run_cond_eq]
        split_ifs <;> first | exact (False.elim (by assumption)) | (congr 1 <;> try congr 1 <;> try ring)
      | some p =>
        simp only [calculate_confidence_score, Option.any_some, Option.isSome_some,
          decide_eq_true_eq]
        rw [run_cond_eq, price_cond_eq]
        split_ifs <;> first | exact (False.elim (by assumption)) | (congr 1 <;> try congr 1 <;> try ring)
  refine ⟨heq, ?_, ?_⟩
  · rw [heq]; exact le_max_left 0 _
  · rw [heq]
    exact max_le (by norm_num) (min_le_left 1 _)

/-! Special-charge extraction (C5). -/

theorem parseMoney_nonneg (l : List Char) (q : ℚ) (h : parseMoney l = some q) :
    0 ≤ q := by
  unfold parseMoney at h
  dsimp only at h
  split at h
  · split_ifs at h with hcond
    have hq := Option.some.inj h
    rw [← hq]
    positivity
  · cases h

theorem postInit_none_ok (rec : ExtractedItem) (hq : rec.quantity = none)
    (it : ExtractedItem) (h : rec.postInit = .ok it) : it = rec := by
  unfold ExtractedItem.postInit at h
  rw [hq] at h
  simp at h
  split_ifs at h <;> try cases h
  all_goals first | rfl | (exfalso; simp [hq] at *)

/-- C5 counterexample: the keyword "service" (or "delivery") alone,
followed by an amount, yields no special-charge item — the compiled
patterns require "charge" or "fee" after the keyword, so the claimed
families {service charge, service fee, service} and {delivery charge,
delivery fee, delivery} are wrong about the bare keywords. -/
theorem C5_counterexample :
    extract_special_charges "service 2.00 delivery 3.00".data = [] := by
  with_unfolding_all decide

/-- C5 (amended): every non-overlapping occurrence of a keyword from
{tip, gratuity} followed by an amount yields one item named "Tip", from
{service charge, service fee} one named "Service Charge", and from
{delivery charge, delivery fee} one named "Delivery Fee" (bare "service"
or "delivery" match nothing); each produced item carries the matched
amount as total price, fixed confidence 0.9, the special-charge flag,
and no quantity or unit price; repeated occurrences are not
deduplicated.  The second conjunct exhibits this on a text containing
"tip 2.00" (one "Tip" item with total price 2.00) together with a second
tip-family occurrence and one occurrence of each other family. -/
theorem C5_special_charges (text : List Char) :
    ((extract_special_charges text).all fun it =>
      it.confidence_score == 9/10 && it.is_special_charge &&
        it.quantity == none && it.unit_price == none &&
        (it.name == "Tip" || it.name == "Service Charge" ||
          it.name == "Delivery Fee")) = true ∧
    extract_special_charges
        "tip 2.00 gratuity 5.00 service fee 1.50 delivery charge 4.00".data =
      [{ name := "Tip", total_price := 2, confidence_score := 9/10,
         is_special_charge := true },
       { name := "Tip", total_price := 5, confidence_score := 9/10,
         is_special_charge := true },
       { name := "Service Charge", total_price := 3/2, confidence_score := 9/10,
         is_special_charge := true },
       { name := "Delivery Fee", total_price := 4, confidence_score := 9/10,
         is_special_charge := true }] := by
  constructor
  · rw [List.all_eq_true]
    intro it hit
    unfold extract_special_charges at hit
    rw [List.mem_flatMap] at hit
    obtain ⟨pi, hpi, hmem⟩ := hit
    rw [List.mem_filterMap] at hmem
    obtain ⟨caps, _, hsome⟩ := hmem
    rcases hcap : capLookup caps "amount" with _ | v
    · rw [hcap] at hsome; cases hsome
    · rw [hcap] at hsome
      dsimp only at hsome
      rcases hmon : parseMoney v with _ | amount
      · rw [hmon] at hsome; cases hsome
      · rw [hmon] at hsome
        dsimp only at hsome
        rcases hpo : ExtractedItem.postInit
            { name := chargeTypeOfIndex pi.1 caps, total_price := amount,
              confidence_score := 9/10, is_special_charge := true } with e | it'
        · rw [hpo] at hsome; cases hsome
        · rw [hpo] at hsome
          have hit' : it' = it := by simpa using hsome
          have hrec := postInit_none_ok _ rfl it' hpo
          rw [← hit', hrec]
          have henum : specialChargePatterns.enum =
              [(0, tipPattern), (1, servicePattern), (2, deliveryPattern)] := rfl
          rw [henum] at hpi
          simp only [List.mem_cons, List.not_mem_nil, or_false] at hpi
          rcases hpi with h | h | h <;> rw [h] <;> simp [chargeTypeOfIndex]
  · with_unfolding_all decide

/-- C6: `_parse_lines` tries the item patterns strictly in the order
(1) quantity + "x" + name + unit price + total price, (2) quantity +
name + total price, (3) name + total price; the first pattern whose
search succeeds classifies the line (a later pattern is never consulted),
and a line matching no pattern is dropped silently from the output
rather than raising. -/
theorem C6_pattern_priority (line : List Char) :
    (∀ caps rest, reSearch itemPatternQxNameUnitPrice line = some (caps, rest) →
      classifyLine line = some (extract_item_from_match caps { text := line })) ∧
    (reSearch itemPatternQxNameUnitPrice line = none →
      ∀ caps rest, reSearch itemPatternQNamePrice line = some (caps, rest) →
        classifyLine line = some (extract_item_from_match caps { text := line })) ∧
    (reSearch itemPatternQxNameUnitPrice line = none →
      reSearch itemPatternQNamePrice line = none →
      ∀ caps rest, reSearch itemPatternNamePrice line = some (caps, rest) →
        classifyLine line = some (extract_item_from_match caps { text := line })) ∧
    (reSearch itemPatternQxNameUnitPrice line = none →
      reSearch itemPatternQNamePrice line = none →
      reSearch itemPatternNamePrice line = none →
      classifyLine line = none) ∧
    (∀ ls, classifyLine line = none → parse_lines (line :: ls) = parse_lines ls) ∧
    (∀ ls pl, classifyLine line = some pl →
      parse_lines (line :: ls) = pl :: parse_lines ls) := by
  refine ⟨?_, ?_, ?_, ?_, ?_, ?_⟩
  · intro caps rest h
    simp only [classifyLine, itemPatterns, tryItemPatterns, h]
  · intro h1 caps rest h
    simp only [classifyLine, itemPatterns, tryItemPatterns, h1, h]
  · intro h1 h2 caps rest h
    simp only [classifyLine, itemPatterns, tryItemPatterns, h1, h2, h]
  · intro h1 h2 h3
    simp only [classifyLine, itemPatterns, tryItemPatterns, h1, h2, h3]
  · intro ls h
    simp only [parse_lines, List.filterMap_cons, h]
  · intro ls pl h
    simp only [parse_lines, List.filterMap_cons, h]

theorem C6_witness :
    reSearch itemPatternQxNameUnitPrice exLine =
      some ([("quantity", "2".data), ("name", "coffee".data),
             ("unit_price", "3.50".data), ("price", "7.00".data)], []) ∧
    (reSearch itemPatternQNamePrice exLine).isSome = true ∧
    (reSearch itemPatternNamePrice exLine).isSome = true ∧
    classifyLine exLine =
      some (extract_item_from_match
        [("quantity", "2".data), ("name", "coffee".data),
         ("unit_price", "3.50".data), ("price", "7.00".data)]
        { text := exLine }) := by
  refine ⟨?_, by with_unfolding_all decide, by with_unfolding_all decide, ?_⟩
  · with_unfolding_all decide
  · exact (C6_pattern_priority exLine).1 _ [] (by with_unfolding_all decide)

/-! Debt-allocation lemmas (C2). -/

theorem lookup_cons (m k : String) (v : Person) (rest : List (String × Person)) :
    List.lookup m ((k, v) :: rest) =
      if m = k then some v else List.lookup m rest := by
  by_cases h : m = k
  · simp [List.lookup, h]
  · have hbeq : (m == k) = false := by simp [h]
    simp [List.lookup, hbeq, h]

theorem lookup_update_self (ps : List (String × Person)) (n item : String)
    (amt : ℚ) :
    (ps.map fun kp =>
      if kp.1 = n then (kp.1, kp.2.add_expense item amt) else kp).lookup n =
      (ps.lookup n).map fun p => p.add_expense item amt := by
  induction ps with
  | nil => rfl
  | cons kp rest ih =>
    obtain ⟨k, v⟩ := kp
    rw [List.map_cons]
    dsimp only
    by_cases h : k = n
    · rw [if_pos h, lookup_cons, lookup_cons, ih, h]
      simp
    · rw [if_neg h, lookup_cons, lookup_cons, ih]
      rw [if_neg (fun h2 => h h2.symm), if_neg (fun h2 => h h2.symm)]

theorem lookup_update_other (ps : List (String × Person)) (n m item : String)
    (amt : ℚ) (hm : m ≠ n) :
    (ps.map fun kp =>
      if kp.1 = n then (kp.1, kp.2.add_expense item amt) else kp).lookup m =
      ps.lookup m := by
  induction ps with
  | nil => rfl
  | cons kp rest ih =>
    obtain ⟨k, v⟩ := kp
    rw [List.map_cons]
    dsimp only
    by_cases h : k = n
    · rw [if_pos h, lookup_cons, lookup_cons, ih]
      rw [if_neg (fun h2 => hm (h2.trans h)), if_neg (fun h2 => hm (h2.trans h))]
    · rw [if_neg h, lookup_cons, lookup_cons, ih]

theorem lookup_append_single (ps : List (String × Person)) (n m : String)
    (p0 : Person) :
    (ps ++ [(n, p0)]).lookup m =
      match ps.lookup m with
      | some p => some p
      | none => if m = n then some p0 else none := by
  induction ps with
  | nil =>
    rw [List.nil_append, lookup_cons]
    rfl
  | cons kp rest ih =>
    obtain ⟨k, v⟩ := kp
    rw [List.cons_append, lookup_cons, lookup_cons, ih]
    by_cases h : m = k
    · rw [if_pos h, if_pos h]
    · rw [if_neg h, if_neg h]

theorem lookup_chargePerson_self (ps : List (String × Person))
    (n item : String) (amt : ℚ) :
    (chargePerson ps n item amt).lookup n =
      some (((ps.lookup n).getD { name := n }).add_expense item amt) := by
  unfold chargePerson
  dsimp only
  rcases hp : ps.lookup n with _ | p
  · rw [if_neg (by simp [hp])]
    rw [lookup_update_self]
    rw [lookup_append_single]
    rw [hp]
    simp
  · rw [if_pos (by simp [hp])]
    rw [lookup_update_self, hp]
    simp

theorem lookup_chargePerson_other (ps : List (String × Person))
    (n m item : String) (amt : ℚ) (hm : m ≠ n) :
    (chargePerson ps n item amt).lookup m = ps.lookup m := by
  unfold chargePerson
  dsimp only
  rcases hp : ps.lookup n with _ | p
  · rw [if_neg (by simp [hp])]
    rw [lookup_update_other _ _ _ _ _ hm]
    rw [lookup_append_single]
    rcases hq : ps.lookup m with _ | q
    · simp [hm]
    · simp
  · rw [if_pos (by simp [hp])]
    exact lookup_update_other _ _ _ _ _ hm

theorem lookup_chargeAll_of_nodup (names : List String) (hnd : names.Nodup) :
    ∀ (ps : List (String × Person)) (item : String) (amt : ℚ) (m : String),
      (chargeAll ps names item amt).lookup m =
        if m ∈ names then
          some (((ps.lookup m).getD { name := m }).add_expense item amt)
        else ps.lookup m := by
  induction names with
  | nil =>
    intro ps item amt m
    simp [chargeAll]
  | cons n ns ih =>
    intro ps item amt m
    have hstep : chargeAll ps (n :: ns) item amt =
        chargeAll (chargePerson ps n item amt) ns item amt := rfl
    rw [hstep, ih (List.Nodup.of_cons hnd)]
    by_cases hmn : m = n
    · subst hmn
      have hnotin : m ∉ ns := (List.nodup_cons.mp hnd).1
      rw [if_neg hnotin, if_pos (List.mem_cons_self m ns)]
      exact lookup_chargePerson_self ps m item amt
    · rw [lookup_chargePerson_other ps n m item amt hmn]
      by_cases hin : m ∈ ns
      · rw [if_pos hin, if_pos (List.mem_cons_of_mem n hin)]
      · rw [if_neg hin, if_neg (by simp [hmn, hin])]

theorem addAllCharges_nil (p : Person) : addAllCharges p [] = p := rfl

theorem addAllCharges_cons (p : Person) (c : String × ℚ) (l : List (String × ℚ)) :
    addAllCharges p (c :: l) = addAllCharges (p.add_expense c.1 c.2) l := rfl

theorem addAllCharges_name (l : List (String × ℚ)) :
    ∀ p : Person, (addAllCharges p l).name = p.name := by
  induction l with
  | nil => intro p; rfl
  | cons c rest ih => intro p; rw [addAllCharges_cons, ih]; rfl

theorem addAllCharges_total (l : List (String × ℚ)) :
    ∀ p : Person, (addAllCharges p l).total_owed =
      p.total_owed + (l.map Prod.snd).sum := by
  induction l with
  | nil => intro p; simp [addAllCharges_nil]
  | cons c rest ih =>
    intro p
    rw [addAllCharges_cons, ih]
    simp [Person.add_expense]
    ring

theorem addAllCharges_items (l : List (String × ℚ)) :
    ∀ p : Person, (addAllCharges p l).items =
      p.items ∪ (l.map Prod.fst).toFinset := by
  induction l with
  | nil => intro p; simp [addAllCharges_nil]
  | cons c rest ih =>
    intro p
    rw [addAllCharges_cons, ih]
    simp only [Person.add_expense, List.map_cons, List.toFinset_cons]
    rw [Finset.insert_union, Finset.union_insert]

theorem chargesFor_cons_mem (m : String) (e : Expense ⊕ ExtractedItem)
    (es : List (Expense ⊕ ExtractedItem)) (h : m ∈ (expenseFields e).2.2) :
    chargesFor m (e :: es) =
      ((expenseFields e).2.1, (expenseFields e).1) :: chargesFor m es := by
  unfold chargesFor
  rw [List.filter_cons, if_pos (by simpa using h)]
  rfl

theorem chargesFor_cons_not_mem (m : String) (e : Expense ⊕ ExtractedItem)
    (es : List (Expense ⊕ ExtractedItem)) (h : m ∉ (expenseFields e).2.2) :
    chargesFor m (e :: es) = chargesFor m es := by
  unfold chargesFor
  rw [List.filter_cons, if_neg (by simpa using h)]

theorem lookup_calcFold (es : List (Expense ⊕ ExtractedItem))
    (hnd : ∀ e ∈ es, ((expenseFields e).2.2).Nodup) :
    ∀ (ps : List (String × Person)) (m : String),
      (es.foldl (fun people expense =>
        let f := expenseFields expense
        f.2.2.foldl (fun qs n => chargePerson qs n f.2.1 f.1) people) ps).lookup m =
      match ps.lookup m with
      | some p => some (addAllCharges p (chargesFor m es))
      | none =>
        if es.any (fun e => m ∈ (expenseFields e).2.2) then
          some (addAllCharges { name := m } (chargesFor m es))
        else none := by
  induction es with
  | nil =>
    intro ps m
    rcases hp : ps.lookup m with _ | p <;> simp [chargesFor, addAllCharges_nil, hp]
  | cons e rest ih =>
    intro ps m
    rw [List.foldl_cons]
    rw [ih (fun x hx => hnd x (List.mem_cons_of_mem e hx))]
    dsimp only
    rw [show List.foldl (fun qs n =>
        chargePerson qs n (expenseFields e).2.1 (expenseFields e).1) ps
        (expenseFields e).2.2 =
        chargeAll ps (expenseFields e).2.2 (expenseFields e).2.1
          (expenseFields e).1 from rfl]
    rw [lookup_chargeAll_of_nodup _ (hnd e (List.mem_cons_self e rest))]
    by_cases hm : m ∈ (expenseFields e).2.2
    · rw [if_pos hm, chargesFor_cons_mem m e rest hm]
      rcases hp : ps.lookup m with _ | p
      · simp only [Option.getD_none]
        rw [if_pos (by simp [hm]), addAllCharges_cons]
      · simp only [Option.getD_some]
        rw [addAllCharges_cons]
    · rw [if_neg hm, chargesFor_cons_not_mem m e rest hm]
      rcases hp : ps.lookup m with _ | p
      · dsimp only
        have hany : ((e :: rest).any fun x => m ∈ (expenseFields x).2.2) =
            (rest.any fun x => m ∈ (expenseFields x).2.2) := by
          simp [List.any_cons, hm]
        rw [hany]
      · rfl

/-- C2: `calculate_debts` produces one ledger per participant name
occurring in at least one item's participant list (items with an empty
participant list contribute to no ledger); each participant's total owed
is the sum of price-per-person over the items listing them, and their
item set is exactly the names of those items.  Participant lists are
assumed duplicate-free, the invariant the item types maintain. -/
theorem C2_calculate_debts (es : List (Expense ⊕ ExtractedItem))
    (hnd : ∀ e ∈ es, ((expenseFields e).2.2).Nodup) :
    ∀ person_name : String,
      (((calculate_debts es).lookup person_name).isSome = true ↔
        ∃ e ∈ es, person_name ∈ (expenseFields e).2.2) ∧
      (∀ p, (calculate_debts es).lookup person_name = some p →
        p.name = person_name ∧
        p.total_owed = ((es.filter fun e =>
            person_name ∈ (expenseFields e).2.2).map fun e =>
            (expenseFields e).1).sum ∧
        p.items = ((es.filter fun e =>
            person_name ∈ (expenseFields e).2.2).map fun e =>
            (expenseFields e).2.1).toFinset) := by
  intro m
  have hmain : (calculate_debts es).lookup m =
      if (es.any fun e => m ∈ (expenseFields e).2.2) then
        some (addAllCharges { name := m } (chargesFor m es))
      else none := lookup_calcFold es hnd [] m
  have hany_iff : (es.any fun e => m ∈ (expenseFields e).2.2) = true ↔
      ∃ e ∈ es, m ∈ (expenseFields e).2.2 := by
    simp [List.any_eq_true]
  constructor
  · constructor
    · intro hs
      by_cases hany : (es.any fun e => m ∈ (expenseFields e).2.2) = true
      · exact hany_iff.mp hany
      · rw [if_neg hany] at hmain
        rw [hmain] at hs
        cases hs
    · intro hex
      rw [if_pos (hany_iff.mpr hex)] at hmain
      rw [hmain]
      rfl
  · intro p hp
    have hany : (es.any fun e => m ∈ (expenseFields e).2.2) = true := by
      by_cases hany : (es.any fun e => m ∈ (expenseFields e).2.2) = true
      · exact hany
      · rw [if_neg hany] at hmain
        rw [hmain] at hp
        cases hp
    rw [if_pos hany] at hmain
    rw [hmain] at hp
    have hpe : p = addAllCharges { name := m } (chargesFor m es) :=
      (Option.some.inj hp).symm
    subst hpe
    refine ⟨addAllCharges_name _ _, ?_, ?_⟩
    · rw [addAllCharges_total]
      unfold chargesFor
      rw [List.map_map]
      rw [show (Prod.snd ∘ fun e : Expense ⊕ ExtractedItem =>
        ((expenseFields e).2.1, (expenseFields e).1)) =
        (fun e : Expense ⊕ ExtractedItem => (expenseFields e).1) from rfl]
      simp
    · rw [addAllCharges_items]
      unfold chargesFor
      rw [List.map_map]
      rw [show (Prod.fst ∘ fun e : Expense ⊕ ExtractedItem =>
        ((expenseFields e).2.1, (expenseFields e).1)) =
        (fun e : Expense ⊕ ExtractedItem => (expenseFields e).2.1) from rfl]
      simp

theorem C2_witness :
    (((calculate_debts exExpenses).lookup "Alice").map Person.total_owed =
      some 20) ∧
    (((calculate_debts exExpenses).lookup "Bob").map Person.total_owed =
      some 10) := by
  have hndx : ∀ e ∈ exExpenses, ((expenseFields e).2.2).Nodup := by
    intro e he
    fin_cases he <;> with_unfolding_all decide
  have hA := (C2_calculate_debts exExpenses hndx "Alice").2
  have hB := (C2_calculate_debts exExpenses hndx "Bob").2
  constructor
  · rcases hLA : (calculate_debts exExpenses).lookup "Alice" with _ | p
    · exact absurd hLA (by with_unfolding_all decide)
    · have ht := (hA p hLA).2.1
      rw [Option.map_some', ht]
      have : ((exExpenses.filter fun e =>
          "Alice" ∈ (expenseFields e).2.2).map fun e =>
          (expenseFields e).1).sum = 20 := by with_unfolding_all decide
      rw [this]
  · rcases hLB : (calculate_debts exExpenses).lookup "Bob" with _ | p
    · exact absurd hLB (by with_unfolding_all decide)
    · have ht := (hB p hLB).2.1
      rw [Option.map_some', ht]
      have : ((exExpenses.filter fun e =>
          "Bob" ∈ (expenseFields e).2.2).map fun e =>
          (expenseFields e).1).sum = 10 := by with_unfolding_all decide
      rw [this]

/-- C8 counterexample: on `"0 coffee 5.00 tip 2.00"` the parser raises
(the classified line's quantity parses as 0 and the item constructor's
`ValueError` is wrapped into a `ReceiptParsingError`) although the input
is not blank and, in the claim's model of the pipeline, a tip item
survives validation, so the final merged validated list is non-empty. -/
theorem C8_counterexample :
    isErr (parse_receipt_text exTextQtyZero) = true ∧
    pyStrip exTextQtyZero ≠ [] ∧
    specFinalItems exTextQtyZero ≠ [] := by
  with_unfolding_all decide

/-- C8 (amended): `parse_receipt_text` raises exactly when the input text
is empty/blank, when converting a classified line to an item fails its
validation (a parsed quantity of 0; the `ValueError` is re-wrapped as
"Failed to parse receipt text: ..." with the accumulated diagnostics
appended), or when the final merged validated item list is empty — in
that last case the single raised message aggregates every intermediate
diagnostic; whenever conversion succeeds and at least one item survives
validation the call returns the non-empty item list without raising. -/
theorem C8_parse_receipt_text (text : List Char) :
    (isErr (parse_receipt_text text) = true ↔
      pyStrip text = [] ∨ isErr (pipelineItems text) = true ∨
        pipelineItems text = .ok []) ∧
    (pyStrip text = [] →
      parse_receipt_text text = .error "The receipt text is empty or blank") ∧
    (∀ items, parse_receipt_text text = .ok items →
      items ≠ [] ∧ pipelineItems text = .ok items) ∧
    (pyStrip text ≠ [] → pipelineItems text = .ok [] →
      parse_receipt_text text =
        .error ("No valid items could be extracted from the receipt" ++
          (if pipelineDiagnostics text ≠ [] then
            ": " ++ joinSemi (pipelineDiagnostics text) else ""))) ∧
    (∀ e, pyStrip text ≠ [] →
      convert_to_extracted_items (pipelineParsedLines text) = .error e →
      parse_receipt_text text =
        .error ("Failed to parse receipt text: " ++ e ++
          (if pipelineDiagnostics text ≠ [] then
            " Additional errors: " ++ joinSemi (pipelineDiagnostics text)
          else ""))) := by
  by_cases hb : pyStrip text = []
  · have hparse : parse_receipt_text text =
        .error "The receipt text is empty or blank" := by
      unfold parse_receipt_text
      rw [if_pos (by simp [hb])]
    refine ⟨?_, fun _ => hparse, ?_, ?_, ?_⟩
    · constructor
      · intro _; exact Or.inl hb
      · intro _; rw [hparse]; rfl
    · intro items hit
      rw [hparse] at hit
      cases hit
    · intro hne; exact absurd hb hne
    · intro e hne; exact absurd hb hne
  · have ht : text ≠ [] := fun he => hb (by rw [he]; rfl)
    have hred : parse_receipt_text text =
        (match convert_to_extracted_items (pipelineParsedLines text) with
        | .error e =>
          .error ("Failed to parse receipt text: " ++ e ++
            (if pipelineDiagnostics text ≠ [] then
              " Additional errors: " ++ joinSemi (pipelineDiagnostics text)
            else ""))
        | .ok converted =>
          if clean_and_validate_items
              (converted ++ extract_special_charges (clean_text text)) = [] then
            .error ("No valid items could be extracted from the receipt" ++
              (if pipelineDiagnostics text ≠ [] then
                ": " ++ joinSemi (pipelineDiagnostics text) else ""))
          else .ok (clean_and_validate_items
            (converted ++ extract_special_charges (clean_text text)))) := by
      unfold parse_receipt_text pipelineDiagnostics pipelineParsedLines
      rw [if_neg (by simp [hb, ht])]
    rcases hconv : convert_to_extracted_items (pipelineParsedLines text)
        with e | converted
    · rw [hconv] at hred
      dsimp only at hred
      have hpi : pipelineItems text = .error e := by
        unfold pipelineItems
        rw [hconv]
      refine ⟨?_, fun h => absurd h hb, ?_, ?_, ?_⟩
      · constructor
        · intro _
          exact Or.inr (Or.inl (by rw [hpi]; rfl))
        · intro _; rw [hred]; rfl
      · intro items hit
        rw [hred] at hit
        cases hit
      · intro _ hok
        rw [hpi] at hok
        cases hok
      · intro e2 _ hconv2
        rw [hred, Except.error.inj hconv2]
    · rw [hconv] at hred
      dsimp only at hred
      have hpi : pipelineItems text = .ok (clean_and_validate_items
          (converted ++ extract_special_charges (clean_text text))) := by
        unfold pipelineItems
        rw [hconv]
      by_cases hempty : clean_and_validate_items
          (converted ++ extract_special_charges (clean_text text)) = []
      · rw [if_pos hempty] at hred
        refine ⟨?_, fun h => absurd h hb, ?_, ?_, ?_⟩
        · constructor
          · intro _
            refine Or.inr (Or.inr ?_)
            rw [hpi, hempty]
          · intro _; rw [hred]; rfl
        · intro items hit
          rw [hred] at hit
          cases hit
        · intro _ _
          exact hred
        · intro e2 _ hconv2
          cases hconv2
      · rw [if_neg hempty] at hred
        refine ⟨?_, fun h => absurd h hb, ?_, ?_, ?_⟩
        · constructor
          · intro hs
            rw [hred] at hs
            cases hs
          · intro hdis
            rcases hdis with h | h | h
            · exact absurd h hb
            · rw [hpi] at h; cases h
            · rw [hpi] at h
              exact absurd (Except.ok.inj h) hempty
        · intro items hit
          rw [hred] at hit
          refine ⟨?_, ?_⟩
          · intro hi
            exact hempty ((Except.ok.inj hit).trans hi)
          · rw [hpi, Except.ok.inj hit]
        · intro _ hok
          rw [hpi] at hok
          exact absurd (Except.ok.inj hok) hempty
        · intro e2 _ hconv2
          cases hconv2

theorem C8_witness :
    parse_receipt_text exTextTea =
      .ok [{ name := "Tea", total_price := 2, confidence_score := 4/5 }] ∧
    ([{ name := "Tea", total_price := 2,
        confidence_score := (4:ℚ)/5 }] : List ExtractedItem) ≠ [] ∧
    pipelineItems exTextTea =
      .ok [{ name := "Tea", total_price := 2, confidence_score := 4/5 }] := by
  have hok : parse_receipt_text exTextTea =
      .ok [{ name := "Tea", total_price := 2, confidence_score := 4/5 }] := by
    with_unfolding_all rfl
  have h := (C8_parse_receipt_text exTextTea).2.2.1 _ hok
  exact ⟨hok, h.1, h.2⟩

end ExpenseSplitter
